import Mathlib

/-
Verification of the `ephemeral_buffers` Go package (a bounded pool of
reusable byte buffers with a background watchdog) against its
natural-language specification.

The Go source is shallowly embedded:
- `Buf` models the `Buffer` struct: the embedded `bytes.Buffer` is reduced to
  its content length (`len`) and capacity (`cap`), plus the pool-membership
  fields `index`, `origSize`, `acquiredAt` and `tag`.  The `pool` back pointer
  is implicit: buffers live inside their `PoolState`.
- `PoolState` models the `Pool` struct.  The Go channel `buffersAvailable` is
  a FIFO list of buffer identifiers (head = next to be received, send appends
  at the tail); `buffersInUse` is a list of optional buffer identifiers; the
  buffers themselves live in `bufs`, indexed by identifier.
- Time is modelled as a `Nat` count of milliseconds; `log` emission is
  modelled by returning a list of `LogEvent`s.
- The mutex only serialises the sequential semantics and has no explicit model.
- Fallible steps (a Go panic such as an out-of-range slice write, or a nil
  pointer dereference) are modelled with `Except` / sum-like result types.
-/

namespace EphemeralBuffers

/-- Model of the Go `Buffer` struct. `len`/`cap` model the embedded
`bytes.Buffer` content length and capacity; `index`, `origSize`,
`acquiredAt`, `tag` are the remaining struct fields (`index` is `int` in Go,
so it is an `Int` here: `-1` is used as a sentinel by `Release`). -/
structure Buf where
  len : Nat
  cap : Nat
  index : Int
  origSize : Nat
  acquiredAt : Nat
  tag : String
deriving Repr, DecidableEq

instance : Inhabited Buf := ⟨⟨0, 0, 0, 0, 0, ""⟩⟩

/-- Log emission through `zerolog`, reduced to the events the package emits. -/
inductive LogEvent where
  | errorInvalidArgs
  | warnGrowth (tag : String) (alloc : Nat) (requested : Nat)
  | warnStale (tag : String) (heldFor : Nat)
  | debugMonitorExit
deriving Repr, DecidableEq

/-- Model of the Go `Pool` struct.  `available` is the channel
`buffersAvailable` (a FIFO queue of buffer identifiers), `inUse` is the slice
`buffersInUse` (entry `none` models a `nil` slot), and `bufs` stores the
actual buffer objects, addressed by identifier. -/
structure PoolState where
  size : Nat
  count : Nat
  available : List Nat
  inUse : List (Option Nat)
  bufs : List Buf
deriving Repr, DecidableEq

/-- `NewPool(ctx, count, size)`: rejects `count <= 0 || size <= 0` with an
error log and a `nil` pool; otherwise builds `count` buffers each pre-grown
to `size` bytes (in Go the zero-valued `index` field starts at `0`, and the
zero-valued `tag` starts empty) and sends them all into the channel. -/
def NewPool (count size : Int) : Option PoolState × List LogEvent :=
  if count ≤ 0 ∨ size ≤ 0 then
    (none, [LogEvent.errorInvalidArgs])
  else
    (some { size := size.toNat
            count := count.toNat
            available := List.range count.toNat
            inUse := List.replicate count.toNat none
            bufs := List.replicate count.toNat
              { len := 0, cap := size.toNat, index := 0, origSize := size.toNat,
                acquiredAt := 0, tag := "" } },
     [])

/-- Index of the first `nil` slot, mirroring the `for i := range p.buffersInUse`
search loop in `Pool.Acquire`. -/
def firstNoneIdx : List (Option Nat) → Option Nat
  | [] => none
  | none :: _ => some 0
  | some _ :: rest => (firstNoneIdx rest).map (· + 1)

/-- Apply an update to the buffer with the given identifier (mutation of one
`*Buffer` on the Go heap). -/
def setBuf (bufs : List Buf) (id : Nat) (f : Buf → Buf) : List Buf :=
  match bufs.get? id with
  | some b => bufs.set id (f b)
  | none => bufs

/-- Result of `Pool.Acquire`: `nilResult` models the early `return nil` on an
invalid pool, `blocked` models the caller parking on `<-p.buffersAvailable`
when the channel is empty (no state change happens until someone releases). -/
inductive AcquireOutcome where
  | nilResult
  | blocked
  | acquired (p : PoolState) (id : Nat)
deriving Repr, DecidableEq

/-- `Pool.Acquire(tag)`: guard on an invalid pool, receive from the channel,
store the buffer in the first `nil` slot of `buffersInUse` (setting
`eb.index = i`; if no slot is free the loop leaves slot and index untouched),
then stamp `eb.tag` and `eb.acquiredAt`.  `now` is the value of
`time.Now()`. -/
def Pool.Acquire (p : PoolState) (tag : String) (now : Nat) : AcquireOutcome :=
  if p.size = 0 ∨ p.count = 0 then AcquireOutcome.nilResult
  else
    match p.available with
    | [] => AcquireOutcome.blocked
    | id :: rest =>
        match firstNoneIdx p.inUse with
        | some i =>
            AcquireOutcome.acquired
              { p with
                  available := rest,
                  inUse := p.inUse.set i (some id),
                  bufs := setBuf p.bufs id
                    (fun b => { b with index := (i : Int), tag := tag, acquiredAt := now }) }
              id
        | none =>
            AcquireOutcome.acquired
              { p with
                  available := rest,
                  bufs := setBuf p.bufs id
                    (fun b => { b with tag := tag, acquiredAt := now }) }
              id

/-- The "check size" step of `Buffer.Release`: if `eb.Cap() > eb.origSize`,
update `eb.origSize` to the capacity. -/
def relBuf (b : Buf) : Buf :=
  if b.origSize < b.cap then { b with origSize := b.cap } else b

/-- The warning emitted by the "check size" step of `Buffer.Release`
(`"Buffer with tag %s allocated %d bytes (%d requested)"`, with the requested
figure read from `eb.pool.size`). -/
def relLogs (p : PoolState) (b : Buf) : List LogEvent :=
  if b.origSize < b.cap then [LogEvent.warnGrowth b.tag b.cap p.size] else []

/-- `Buffer.Release()` for a buffer owned by pool `p` (the `eb.pool == nil`
early return can never fire for a pool-owned buffer, since `NewPool` sets the
back pointer).  After the size check, the Go code writes
`p.buffersInUse[eb.index] = nil` with no bounds check: an out-of-range
`eb.index` (such as the `-1` sentinel left by a previous release) is a
runtime panic, modelled as `Except.error`.  Otherwise the slot is cleared,
`eb.index`/`eb.tag` are reset, the content is `Reset()` (length zero,
capacity retained) and the handle is sent back to the channel. -/
def Buffer.Release (p : PoolState) (id : Nat) : Except Unit (PoolState × List LogEvent) :=
  match p.bufs.get? id with
  | none => Except.error ()
  | some b =>
      if 0 ≤ (relBuf b).index ∧ (relBuf b).index.toNat < p.inUse.length then
        Except.ok
          ({ p with
              inUse := p.inUse.set (relBuf b).index.toNat none,
              bufs := p.bufs.set id { relBuf b with index := -1, tag := "", len := 0 },
              available := p.available ++ [id] },
           relLogs p b)
      else Except.error ()

/-- The counting loop of `Pool.BuffersAvailable`: number of `nil` entries. -/
def noneCount : List (Option Nat) → Nat
  | [] => 0
  | none :: rest => noneCount rest + 1
  | some _ :: rest => noneCount rest

/-- `Pool.BuffersAvailable()`: `0` for an invalid/torn-down pool, otherwise
the number of `nil` slots in `buffersInUse`. -/
def Pool.BuffersAvailable (p : PoolState) : Nat :=
  if p.size = 0 ∨ p.count = 0 then 0 else noneCount p.inUse

/-- Receive `n` values from the channel; `none` models the drain loop of
`Pool.Free` blocking forever because fewer than `n` handles ever arrive. -/
def drainN : Nat → List Nat → Option (List Nat)
  | 0, xs => some xs
  | _ + 1, [] => none
  | n + 1, _ :: xs => drainN n xs

/-- `Pool.Free()`: no-op on an invalid pool; otherwise remember `count`, set
`p.count = 0` (the watchdog exit signal), receive exactly `count` handles
from the channel, then discard `buffersInUse`.  `none` models the
documented deadlock when leased buffers are never released. -/
def Pool.Free (p : PoolState) : Option PoolState :=
  if p.size = 0 ∨ p.count = 0 then some p
  else
    match drainN p.count p.available with
    | none => none
    | some rest => some { p with count := 0, available := rest, inUse := [] }

/-- The scan loop of `poolMonitor`: for every non-`nil` slot, warn when the
buffer has been held for more than 100 ms. -/
def monitorScan (bufs : List Buf) (now : Nat) : List (Option Nat) → List LogEvent
  | [] => []
  | none :: rest => monitorScan bufs now rest
  | some id :: rest =>
      (match bufs.get? id with
       | some b =>
           if b.acquiredAt + 100 < now then
             [LogEvent.warnStale b.tag (now - b.acquiredAt)]
           else []
       | none => []) ++ monitorScan bufs now rest

/-- One iteration of the `poolMonitor` loop body (between two sleeps): under
the lock, exit (with a debug log) if `p.count == 0`, otherwise scan
`buffersInUse` for stale buffers.  Returns the pool state after the
iteration, the emitted logs, and whether the loop terminated. -/
def Pool.poolMonitorStep (p : PoolState) (now : Nat) : PoolState × List LogEvent × Bool :=
  if p.count = 0 then (p, [LogEvent.debugMonitorExit], true)
  else (p, monitorScan p.bufs now p.inUse, false)

/-- Outcome of calling a method through a possibly-`nil` `*Pool` (as returned
by `NewPool` on invalid arguments).  Every `Pool` method starts by reading
`p.size` or `p.count`, which dereferences the receiver: on a `nil` receiver
this is a Go nil-pointer-dereference panic. -/
inductive RefOutcome (α : Type) where
  | panicNilDeref
  | ok (a : α)
deriving Repr, DecidableEq

/-- `p.Acquire(tag)` through a possibly-`nil` pool pointer. -/
def Pool.AcquireRef (p : Option PoolState) (tag : String) (now : Nat) :
    RefOutcome AcquireOutcome :=
  match p with
  | none => RefOutcome.panicNilDeref
  | some q => RefOutcome.ok (Pool.Acquire q tag now)

/-- `p.BuffersAvailable()` through a possibly-`nil` pool pointer. -/
def Pool.BuffersAvailableRef (p : Option PoolState) : RefOutcome Nat :=
  match p with
  | none => RefOutcome.panicNilDeref
  | some q => RefOutcome.ok (Pool.BuffersAvailable q)

/-- `p.Free()` through a possibly-`nil` pool pointer. -/
def Pool.FreeRef (p : Option PoolState) : RefOutcome (Option PoolState) :=
  match p with
  | none => RefOutcome.panicNilDeref
  | some q => RefOutcome.ok (Pool.Free q)

/-- Identifiers of the buffers currently stored in `buffersInUse` slots. -/
def someIds : List (Option Nat) → List Nat
  | [] => []
  | none :: rest => someIds rest
  | some id :: rest => id :: someIds rest

/-- A buffer is leased exactly when some `buffersInUse` slot holds it. -/
def leased (p : PoolState) (id : Nat) : Prop := some id ∈ p.inUse

instance (p : PoolState) (id : Nat) : Decidable (leased p id) :=
  inferInstanceAs (Decidable (some id ∈ p.inUse))

/-- Whether `Buffer.Release` completed without a Go panic. -/
def releaseOk (p : PoolState) (id : Nat) : Bool :=
  match Buffer.Release p id with
  | Except.ok _ => true
  | Except.error _ => false

/-- Pool state after `Buffer.Release` (the input state if it panicked). -/
def releaseStateD (p : PoolState) (id : Nat) : PoolState :=
  match Buffer.Release p id with
  | Except.ok q => q.fst
  | Except.error _ => p

/-- Logs emitted by `Buffer.Release` (empty if it panicked before logging
nothing relevant). -/
def releaseLogsD (p : PoolState) (id : Nat) : List LogEvent :=
  match Buffer.Release p id with
  | Except.ok q => q.snd
  | Except.error _ => []

/-- Whether a log batch contains a buffer-growth warning. -/
def growthWarned (logs : List LogEvent) : Bool :=
  logs.any fun e =>
    match e with
    | LogEvent.warnGrowth _ _ _ => true
    | _ => false

/-- Identifier handed out by `Pool.Acquire` (if any). -/
def acquireIdD (p : PoolState) (tag : String) (now : Nat) : Option Nat :=
  match Pool.Acquire p tag now with
  | AcquireOutcome.acquired _ id => some id
  | _ => none

/-- Pool state after `Pool.Acquire` (the input state if nothing was acquired). -/
def acquireStateD (p : PoolState) (tag : String) (now : Nat) : PoolState :=
  match Pool.Acquire p tag now with
  | AcquireOutcome.acquired q _ => q
  | _ => p

/-- `k` successive `Pool.Acquire` calls, collecting the acquired identifiers
in order; `none` if any call fails to produce a buffer. -/
def acquireK (tag : String) (now : Nat) : Nat → PoolState → Option (PoolState × List Nat)
  | 0, p => some (p, [])
  | k + 1, p =>
      match Pool.Acquire p tag now with
      | AcquireOutcome.acquired p' id =>
          match acquireK tag now k p' with
          | some (q, ids) => some (q, id :: ids)
          | none => none
      | _ => none

/-- Release the listed buffers in order; `none` if any release panics. -/
def releaseAll : List Nat → PoolState → Option PoolState
  | [], p => some p
  | id :: rest, p =>
      match Buffer.Release p id with
      | Except.ok q => releaseAll rest q.fst
      | Except.error _ => none

/-- State after `k` acquires (input state if they could not all happen). -/
def afterAcquires (tag : String) (now : Nat) (k : Nat) (p : PoolState) : PoolState :=
  ((acquireK tag now k p).getD (p, [])).fst

/-- Identifiers collected by `k` acquires. -/
def acquiredIds (tag : String) (now : Nat) (k : Nat) (p : PoolState) : List Nat :=
  ((acquireK tag now k p).getD (p, [])).snd

/-- State after releasing the listed buffers (input state on panic). -/
def afterReleaseAll (ids : List Nat) (p : PoolState) : PoolState :=
  (releaseAll ids p).getD p

/-- Representation invariant of a live pool: `buffersInUse` and the buffer
store have length `count`; every queued identifier is in range; no identifier
appears twice among the channel and the in-use slots; queued plus in-use
handles account for all `count` buffers; a buffer stored in slot `i` records
`index = i`; and a buffer that is not leased carries an empty tag. -/
structure Inv (p : PoolState) : Prop where
  inUse_len : p.inUse.length = p.count
  bufs_len : p.bufs.length = p.count
  avail_lt : ∀ id ∈ p.available, id < p.count
  nodup : (p.available ++ someIds p.inUse).Nodup
  complete : p.available.length + (someIds p.inUse).length = p.count
  slots : ∀ i id, p.inUse.get? i = some (some id) →
      id < p.count ∧ ∃ b, p.bufs.get? id = some b ∧ b.index = (i : Int)
  tag_clear : ∀ id b, p.bufs.get? id = some b → ¬ leased p id → b.tag = ""

/-- A pool state is reachable when it arises from a successful `NewPool` by
any sequence of `Acquire` and `Release` calls, where `Release` is only ever
invoked on a buffer the caller actually holds (a currently-leased one): the
API hands out buffers only through `Acquire`, and the package contract
forbids using a buffer after releasing it.  `BuffersAvailable` and the
watchdog scan read but never write the state, so they introduce no further
states. -/
inductive Reachable : PoolState → Prop where
  | init (c s : Int) (p : PoolState) :
      (NewPool c s).fst = some p → Reachable p
  | acq (p p' : PoolState) (tag : String) (now : Nat) (id : Nat) :
      Reachable p → Pool.Acquire p tag now = AcquireOutcome.acquired p' id → Reachable p'
  | rel (p p' : PoolState) (id i : Nat) (logs : List LogEvent) :
      Reachable p → p.inUse.get? i = some (some id) →
      Buffer.Release p id = Except.ok (p', logs) → Reachable p'

/-- The pool state `NewPool` builds for positive `count` and `size`: `count`
buffers pre-grown to `size`, all queued, no slot in use. -/
def freshPoolN (count size : Nat) : PoolState :=
  { size := size
    count := count
    available := List.range count
    inUse := List.replicate count none
    bufs := List.replicate count
      { len := 0, cap := size, index := 0, origSize := size, acquiredAt := 0, tag := "" } }

/-! ### Concrete states used by witnesses and counterexamples -/

/-- The single buffer of a fresh one-buffer pool: note the Go zero-valued
`index = 0` (not the `-1` sentinel) and empty tag. -/
def bFresh : Buf := { len := 0, cap := 1, index := 0, origSize := 1, acquiredAt := 0, tag := "" }

/-- The pool produced by `NewPool(ctx, 1, 1)`. -/
def freshPool1 : PoolState :=
  { size := 1, count := 1, available := [0], inUse := [none], bufs := [bFresh] }

/-- The buffer of `freshPool1` after `Acquire("t")` at time 5. -/
def bAcq : Buf := { len := 0, cap := 1, index := 0, origSize := 1, acquiredAt := 5, tag := "t" }

/-- `freshPool1` after `Acquire("t")` at time 5. -/
def pAcq1 : PoolState :=
  { size := 1, count := 1, available := [], inUse := [some 0], bufs := [bAcq] }

/-- The buffer of `freshPool1` after `Acquire("")` at time 5: leased, yet its
tag is empty. -/
def bAcqEmpty : Buf := { len := 0, cap := 1, index := 0, origSize := 1, acquiredAt := 5, tag := "" }

/-- `freshPool1` after `Acquire("")` at time 5. -/
def pAcqEmpty : PoolState :=
  { size := 1, count := 1, available := [], inUse := [some 0], bufs := [bAcqEmpty] }

/-- The buffer of `pAcq1` after `Release()`: the `-1` sentinel is set. -/
def bRel : Buf := { len := 0, cap := 1, index := -1, origSize := 1, acquiredAt := 5, tag := "" }

/-- `pAcq1` after `Release()` of its buffer. -/
def pRel1 : PoolState :=
  { size := 1, count := 1, available := [0], inUse := [none], bufs := [bRel] }

/-- A leased buffer that has grown beyond its budget (capacity 2 over a
1-byte `origSize`). -/
def bGrow : Buf := { len := 2, cap := 2, index := 0, origSize := 1, acquiredAt := 0, tag := "g" }

/-- A one-buffer pool whose leased buffer has grown to capacity 2. -/
def pGrow : PoolState :=
  { size := 1, count := 1, available := [], inUse := [some 0], bufs := [bGrow] }

/-- The grown buffer re-acquired later: high-water mark already at 2. -/
def bGrow2 : Buf := { len := 0, cap := 2, index := 0, origSize := 2, acquiredAt := 9, tag := "h" }

/-- The pool holding `bGrow2` leased. -/
def pGrow2 : PoolState :=
  { size := 1, count := 1, available := [], inUse := [some 0], bufs := [bGrow2] }

/-- A torn-down pool (count already zeroed by `Free`). -/
def pDead : PoolState := { size := 1000, count := 0, available := [], inUse := [], bufs := [] }

/-- A leased buffer in slot 0 of a two-buffer pool. -/
def bMid : Buf := { len := 0, cap := 1, index := 0, origSize := 1, acquiredAt := 3, tag := "m" }

/-- A two-buffer pool with slot 0 leased and buffer 1 queued. -/
def pMid : PoolState :=
  { size := 1, count := 2, available := [1], inUse := [some 0, none], bufs := [bMid, bFresh] }

/-- The pool produced by `NewPool(ctx, 2, 1)`. -/
def freshPool2 : PoolState :=
  { size := 1, count := 2, available := [0, 1], inUse := [none, none], bufs := [bFresh, bFresh] }

/-- A two-buffer pool with one buffer still leased (so `Free` would block). -/
def pPartial : PoolState :=
  { size := 1, count := 2, available := [0], inUse := [some 1, none], bufs := [bFresh, bMid] }

/-! ### List helper lemmas -/

theorem get?_lt {α : Type} : ∀ {l : List α} {i : Nat} {a : α},
    l.get? i = some a → i < l.length
  | [], i, a, h => by simp [List.get?] at h
  | x :: l, 0, a, _ => by simp [List.length]
  | x :: l, i + 1, a, h => by
      have := get?_lt (l := l) (i := i) (a := a) h
      simpa [List.length] using Nat.succ_lt_succ this

theorem get?_of_lt {α : Type} : ∀ {l : List α} {i : Nat},
    i < l.length → ∃ a, l.get? i = some a
  | [], i, h => by simp at h
  | x :: l, 0, _ => ⟨x, rfl⟩
  | x :: l, i + 1, h => get?_of_lt (l := l) (Nat.lt_of_succ_lt_succ h)

theorem get?_set_self {α : Type} : ∀ (l : List α) (i : Nat) (a : α),
    i < l.length → (l.set i a).get? i = some a
  | [], i, a, h => by simp at h
  | x :: l, 0, a, _ => rfl
  | x :: l, i + 1, a, h => get?_set_self l i a (Nat.lt_of_succ_lt_succ h)

theorem get?_set_other {α : Type} : ∀ (l : List α) (i j : Nat) (a : α),
    i ≠ j → (l.set i a).get? j = l.get? j
  | [], _, _, _, _ => rfl
  | x :: l, 0, 0, a, h => absurd rfl h
  | x :: l, 0, j + 1, a, _ => rfl
  | x :: l, i + 1, 0, a, _ => rfl
  | x :: l, i + 1, j + 1, a, h =>
      get?_set_other l i j a (fun hij => h (congrArg Nat.succ hij))

theorem set_of_get? {α : Type} : ∀ {l : List α} {i : Nat} {a : α},
    l.get? i = some a → l.set i a = l
  | [], i, a, h => by simp [List.get?] at h
  | x :: l, 0, a, h => by
      simp [List.get?] at h
      simp [List.set, h]
  | x :: l, i + 1, a, h => by
      simp [List.set, set_of_get? (l := l) (i := i) h]

theorem mem_of_get? {α : Type} : ∀ {l : List α} {i : Nat} {a : α},
    l.get? i = some a → a ∈ l
  | [], i, a, h => by simp [List.get?] at h
  | x :: l, 0, a, h => by
      simp [List.get?] at h
      simp [h]
  | x :: l, i + 1, a, h =>
      List.mem_cons_of_mem x (mem_of_get? (l := l) (i := i) h)

theorem get?_of_mem {α : Type} : ∀ {l : List α} {a : α},
    a ∈ l → ∃ i, l.get? i = some a := by
  intro l
  induction l with
  | nil => intro a h; simp at h
  | cons x l ih =>
      intro a h
      rcases List.mem_cons.mp h with h | h
      · exact ⟨0, by simp [List.get?, h]⟩
      · obtain ⟨i, hi⟩ := ih h
        exact ⟨i + 1, hi⟩

/-! ### Lemmas about `someIds`, `noneCount` and `firstNoneIdx` -/

theorem noneCount_add_someIds_length : ∀ l : List (Option Nat),
    noneCount l + (someIds l).length = l.length
  | [] => rfl
  | none :: rest => by
      have := noneCount_add_someIds_length rest
      simp [noneCount, someIds, List.length]
      omega
  | some id :: rest => by
      have := noneCount_add_someIds_length rest
      simp [noneCount, someIds, List.length]
      omega

theorem mem_someIds {a : Nat} : ∀ {l : List (Option Nat)}, a ∈ someIds l ↔ some a ∈ l
  | [] => by simp [someIds]
  | none :: rest => by
      simp [someIds, mem_someIds (l := rest)]
  | some b :: rest => by
      simp [someIds, List.mem_cons, mem_someIds (l := rest)]

theorem someIds_replicate_none : ∀ n : Nat, someIds (List.replicate n none) = []
  | 0 => rfl
  | n + 1 => by simp [List.replicate, someIds, someIds_replicate_none n]

theorem firstNoneIdx_isSome : ∀ {l : List (Option Nat)},
    noneCount l ≠ 0 → ∃ i, firstNoneIdx l = some i
  | [], h => absurd rfl h
  | none :: rest, _ => ⟨0, rfl⟩
  | some b :: rest, h => by
      obtain ⟨j, hj⟩ := firstNoneIdx_isSome (l := rest) (by simpa [noneCount] using h)
      exact ⟨j + 1, by simp [firstNoneIdx, hj]⟩

theorem firstNoneIdx_get? : ∀ {l : List (Option Nat)} {i : Nat},
    firstNoneIdx l = some i → l.get? i = some none
  | [], i, h => by simp [firstNoneIdx] at h
  | none :: rest, i, h => by
      simp [firstNoneIdx] at h
      simp [← h, List.get?]
  | some b :: rest, i, h => by
      simp [firstNoneIdx] at h
      obtain ⟨j, hj, hji⟩ := h
      subst hji
      exact firstNoneIdx_get? (l := rest) hj

theorem firstNoneIdx_least : ∀ {l : List (Option Nat)} {i : Nat},
    l.get? i = some none → (∀ j, j < i → l.get? j ≠ some none) →
    firstNoneIdx l = some i
  | [], i, h, _ => by simp [List.get?] at h
  | none :: rest, 0, _, _ => rfl
  | none :: rest, i + 1, _, hleast =>
      absurd rfl (hleast 0 (Nat.succ_pos i))
  | some b :: rest, 0, h, _ => by simp [List.get?] at h
  | some b :: rest, i + 1, h, hleast => by
      have ih := firstNoneIdx_least (l := rest) (i := i) h
        (fun j hj => hleast (j + 1) (Nat.succ_lt_succ hj))
      simp [firstNoneIdx, ih]

theorem someIds_nodup_get?_inj : ∀ {l : List (Option Nat)},
    (someIds l).Nodup → ∀ {i j a}, l.get? i = some (some a) → l.get? j = some (some a) → i = j := by
  intro l
  induction l with
  | nil => intro _ i j a hi _; simp [List.get?] at hi
  | cons x rest ih =>
      intro hnd i j a hi hj
      match x, i, j with
      | _, 0, 0 => rfl
      | x, 0, k + 1 =>
          simp [List.get?] at hi
          subst hi
          have hnd' := by simpa [someIds] using hnd
          have : a ∈ someIds rest := mem_someIds.mpr (mem_of_get? (l := rest) hj)
          exact absurd this hnd'.1
      | x, k + 1, 0 =>
          simp [List.get?] at hj
          subst hj
          have hnd' := by simpa [someIds] using hnd
          have : a ∈ someIds rest := mem_someIds.mpr (mem_of_get? (l := rest) hi)
          exact absurd this hnd'.1
      | none, k + 1, m + 1 =>
          have := ih (by simpa [someIds] using hnd) hi hj
          simpa using congrArg Nat.succ this
      | some b, k + 1, m + 1 =>
          have hnd' : (someIds rest).Nodup := by
            have := by simpa [someIds] using hnd
            exact this.2
          have := ih hnd' hi hj
          simpa using congrArg Nat.succ this

theorem someIds_set_some_perm : ∀ {l : List (Option Nat)} {i : Nat} (a : Nat),
    l.get? i = some none → List.Perm (someIds (l.set i (some a))) (a :: someIds l)
  | [], i, a, h => by simp [List.get?] at h
  | none :: rest, 0, a, _ => by simp [List.set, someIds]
  | none :: rest, i + 1, a, h => by
      simpa [List.set, someIds] using someIds_set_some_perm (l := rest) (i := i) a h
  | some b :: rest, 0, a, h => by simp [List.get?] at h
  | some b :: rest, i + 1, a, h => by
      have ih := someIds_set_some_perm (l := rest) (i := i) a h
      have h1 : someIds ((some b :: rest).set (i + 1) (some a))
          = b :: someIds (rest.set i (some a)) := by simp [List.set, someIds]
      have h2 : List.Perm (b :: someIds (rest.set i (some a))) (b :: a :: someIds rest) :=
        ih.cons b
      have h3 : List.Perm (b :: a :: someIds rest) (a :: b :: someIds rest) :=
        List.Perm.swap a b _
      rw [h1]
      exact (h2.trans h3)

theorem set_set_same {α : Type} : ∀ (l : List α) (i : Nat) (a b : α),
    (l.set i a).set i b = l.set i b
  | [], _, _, _ => rfl
  | x :: l, 0, a, b => rfl
  | x :: l, i + 1, a, b => by simp [List.set, set_set_same l i a b]

theorem someIds_set_none_perm {l : List (Option Nat)} {i : Nat} {a : Nat}
    (h : l.get? i = some (some a)) :
    List.Perm (someIds l) (a :: someIds (l.set i none)) := by
  have hi : i < l.length := get?_lt h
  have hnone : (l.set i none).get? i = some none := get?_set_self l i none hi
  have hperm := someIds_set_some_perm (l := l.set i none) (i := i) a hnone
  rw [set_set_same, set_of_get? h] at hperm
  exact hperm

/-! ### Lemmas about `drainN` -/

theorem drainN_all : ∀ l : List Nat, drainN l.length l = some []
  | [] => rfl
  | x :: l => by simpa [List.length, drainN] using drainN_all l

theorem drainN_short : ∀ (n : Nat) (l : List Nat), l.length < n → drainN n l = none
  | 0, l, h => by simp at h
  | n + 1, [], _ => rfl
  | n + 1, x :: l, h => by
      simpa [drainN] using drainN_short n l (Nat.lt_of_succ_lt_succ h)

/-! ### Computation lemmas for `Acquire` and `Release` -/

theorem toNat_natCast (n : Nat) : ((n : Int)).toNat = n := rfl

theorem relBuf_index (b : Buf) : (relBuf b).index = b.index := by
  unfold relBuf
  split <;> rfl

theorem setBuf_eq {bufs : List Buf} {id : Nat} {b : Buf} (f : Buf → Buf)
    (h : bufs.get? id = some b) : setBuf bufs id f = bufs.set id (f b) := by
  unfold setBuf
  rw [h]

/-- Evaluation of `Buffer.Release` on a leased buffer (known slot index). -/
theorem release_eq {p : PoolState} {id i : Nat} {b : Buf}
    (hb : p.bufs.get? id = some b) (hidx : b.index = (i : Int))
    (hi : i < p.inUse.length) :
    Buffer.Release p id = Except.ok
      ({ p with
          inUse := p.inUse.set i none,
          bufs := p.bufs.set id { relBuf b with index := -1, tag := "", len := 0 },
          available := p.available ++ [id] },
       relLogs p b) := by
  unfold Buffer.Release
  rw [hb]
  simp only [relBuf_index, hidx, toNat_natCast]
  rw [if_pos ⟨Int.natCast_nonneg i, hi⟩]

/-- Evaluation of `Pool.Acquire` on a valid pool with a non-empty channel and
a free slot. -/
theorem acquire_eq (tag : String) (now : Nat) {p : PoolState} {id : Nat}
    {rest : List Nat} {i : Nat} {b : Buf}
    (hs : p.size ≠ 0) (hc : p.count ≠ 0) (hav : p.available = id :: rest)
    (hfn : firstNoneIdx p.inUse = some i) (hb : p.bufs.get? id = some b) :
    Pool.Acquire p tag now = AcquireOutcome.acquired
      { p with
          available := rest,
          inUse := p.inUse.set i (some id),
          bufs := p.bufs.set id { b with index := (i : Int), tag := tag, acquiredAt := now } }
      id := by
  unfold Pool.Acquire
  rw [if_neg (by simp [hs, hc]), hav, hfn]
  exact congrArg
    (fun B => AcquireOutcome.acquired
      { p with available := rest, inUse := p.inUse.set i (some id), bufs := B } id)
    (setBuf_eq (fun b => { b with index := (i : Int), tag := tag, acquiredAt := now }) hb)

/-! ### The pool representation invariant -/

theorem get?_replicate {α : Type} : ∀ {n i : Nat} {a b : α},
    (List.replicate n a).get? i = some b → b = a
  | 0, i, a, b, h => by simp [List.replicate, List.get?] at h
  | n + 1, 0, a, b, h => by
      simp [List.replicate, List.get?] at h
      exact h.symm
  | n + 1, i + 1, a, b, h =>
      get?_replicate (n := n) (i := i) (by simpa [List.replicate, List.get?] using h)

theorem inv_init {c s : Int} {p : PoolState} (h : (NewPool c s).fst = some p) : Inv p := by
  unfold NewPool at h
  by_cases hg : c ≤ 0 ∨ s ≤ 0
  · rw [if_pos hg] at h
    cases h
  · rw [if_neg hg] at h
    simp only [Option.some.injEq] at h
    subst h
    constructor
    · simp
    · simp
    · intro id hid
      simpa [List.mem_range] using hid
    · simp [someIds_replicate_none, List.nodup_range]
    · simp [someIds_replicate_none]
    · intro i id hslot
      have : (none : Option Nat) = some id := by
        have := get?_replicate hslot
        exact this.symm
      cases this
    · intro id b hb _
      have := get?_replicate hb
      rw [this]

/-- `Pool.Acquire` preserves the representation invariant, dequeues the head
of the channel, leases the dequeued buffer, and keeps every other lease. -/
theorem inv_acquire {p p' : PoolState} {tag : String} {now : Nat} {id : Nat}
    (hInv : Inv p) (h : Pool.Acquire p tag now = AcquireOutcome.acquired p' id) :
    Inv p' ∧ p'.size = p.size ∧ p'.count = p.count ∧ p.available = id :: p'.available ∧
      p'.bufs.length = p.bufs.length ∧ leased p' id ∧ (∀ x, leased p x → leased p' x) := by
  by_cases hg : p.size = 0 ∨ p.count = 0
  · rw [Pool.Acquire, if_pos hg] at h
    cases h
  · have hs : p.size ≠ 0 := fun hx => hg (Or.inl hx)
    have hc : p.count ≠ 0 := fun hx => hg (Or.inr hx)
    cases hav : p.available with
    | nil =>
        rw [Pool.Acquire, if_neg hg, hav] at h
        cases h
    | cons id0 rest =>
        have hid0c : id0 < p.count :=
          hInv.avail_lt id0 (by rw [hav]; exact List.mem_cons_self _ _)
        have hnc : noneCount p.inUse ≠ 0 := by
          have h1 := noneCount_add_someIds_length p.inUse
          have h2 := hInv.complete
          have h3 := hInv.inUse_len
          rw [hav] at h2
          simp only [List.length_cons] at h2
          omega
        obtain ⟨i, hfn⟩ := firstNoneIdx_isSome hnc
        obtain ⟨b, hb⟩ := get?_of_lt (l := p.bufs) (i := id0)
          (by rw [hInv.bufs_len]; exact hid0c)
        have heq := acquire_eq tag now hs hc hav hfn hb
        rw [heq] at h
        have hid : id = id0 := by
          injection h with h1 h2
          exact h2.symm
        subst hid
        have hp' : p' = { p with
            available := rest,
            inUse := p.inUse.set i (some id),
            bufs := p.bufs.set id { b with index := (i : Int), tag := tag, acquiredAt := now } } := by
          injection h with h1 h2
          exact h1.symm
        subst hp'
        have hslot_i : p.inUse.get? i = some none := firstNoneIdx_get? hfn
        have hi_len : i < p.inUse.length := get?_lt hslot_i
        have hid_bufs : id < p.bufs.length := by rw [hInv.bufs_len]; exact hid0c
        have hnd : (id :: (rest ++ someIds p.inUse)).Nodup := by
          have := hInv.nodup
          rw [hav, List.cons_append] at this
          exact this
        have hid_notS : id ∉ someIds p.inUse := by
          intro hmem
          exact (List.nodup_cons.mp hnd).1 (List.mem_append.mpr (Or.inr hmem))
        have hperm := someIds_set_some_perm (l := p.inUse) (i := i) id hslot_i
        refine ⟨?_, rfl, rfl, rfl, by simp, ?_, ?_⟩
        · constructor
          · simp only [List.length_set]
            exact hInv.inUse_len
          · simp only [List.length_set]
            exact hInv.bufs_len
          · intro x hx
            exact hInv.avail_lt x (by rw [hav]; exact List.mem_cons_of_mem _ hx)
          · have hchain : List.Perm (rest ++ someIds (p.inUse.set i (some id)))
                (id :: (rest ++ someIds p.inUse)) :=
              ((hperm.append_left rest).trans List.perm_middle)
            exact (hchain.nodup_iff).mpr hnd
          · have hlen2 := hperm.length_eq
            have h2 := hInv.complete
            rw [hav] at h2
            simp only [List.length_cons] at h2 hlen2 ⊢
            omega
          · intro j idj hj
            by_cases hji : j = i
            · subst hji
              rw [get?_set_self _ _ _ hi_len] at hj
              have hidj : idj = id := by
                injection hj with hj1
                injection hj1 with hj2
                exact hj2.symm
              subst hidj
              exact ⟨hid0c, ⟨_, get?_set_self _ _ _ hid_bufs, rfl⟩⟩
            · rw [get?_set_other _ i j _ (fun hij => hji hij.symm)] at hj
              obtain ⟨hidj_lt, bj, hbj, hbjidx⟩ := hInv.slots j idj hj
              have hidj_ne : idj ≠ id := by
                intro hx
                subst hx
                exact hid_notS (mem_someIds.mpr (mem_of_get? hj))
              exact ⟨hidj_lt, ⟨bj,
                by rw [get?_set_other _ id idj _ (fun hx => hidj_ne hx.symm)]; exact hbj,
                hbjidx⟩⟩
          · intro x bx hbx hnl
            by_cases hx : x = id
            · subst hx
              exact absurd (mem_of_get? (get?_set_self _ _ (some x) hi_len)) hnl
            · rw [get?_set_other _ id x _ (fun hxx => hx hxx.symm)] at hbx
              refine hInv.tag_clear x bx hbx ?_
              intro hlx
              obtain ⟨j, hj⟩ := get?_of_mem hlx
              have hji : j ≠ i := by
                intro hx2
                subst hx2
                rw [hslot_i] at hj
                simp at hj
              exact hnl (mem_of_get?
                (by rw [get?_set_other _ i j _ (fun hij => hji hij.symm)]; exact hj))
        · exact mem_of_get? (get?_set_self _ _ (some id) hi_len)
        · intro x hlx
          obtain ⟨j, hj⟩ := get?_of_mem hlx
          have hji : j ≠ i := by
            intro hx
            subst hx
            rw [hslot_i] at hj
            simp at hj
          exact mem_of_get?
            (by rw [get?_set_other _ i j _ (fun hij => hji hij.symm)]; exact hj)

/-- `Buffer.Release` of a leased buffer succeeds, preserves the
representation invariant, enqueues the handle, empties the slot, and keeps
every other lease. -/
theorem inv_release {p : PoolState} {id i : Nat}
    (hInv : Inv p) (hle : p.inUse.get? i = some (some id)) :
    ∃ p' logs, Buffer.Release p id = Except.ok (p', logs) ∧ Inv p' ∧
      p'.size = p.size ∧ p'.count = p.count ∧
      p'.available = p.available ++ [id] ∧ p'.inUse = p.inUse.set i none ∧
      (∀ x, x ≠ id → leased p x → leased p' x) := by
  obtain ⟨hidc, b, hb, hbidx⟩ := hInv.slots i id hle
  have hi : i < p.inUse.length := get?_lt hle
  have hid_bufs : id < p.bufs.length := by rw [hInv.bufs_len]; exact hidc
  have heq := release_eq hb hbidx hi
  have hSnd : (someIds p.inUse).Nodup := (List.nodup_append.mp hInv.nodup).2.1
  have hperm := someIds_set_none_perm hle
  refine ⟨_, _, heq, ?_, rfl, rfl, rfl, rfl, ?_⟩
  · constructor
    · simp [hInv.inUse_len]
    · simp [hInv.bufs_len]
    · intro x hx
      rcases List.mem_append.mp hx with hx | hx
      · exact hInv.avail_lt x hx
      · rw [List.mem_singleton.mp hx]
        exact hidc
    · have hchain : List.Perm
          ((p.available ++ [id]) ++ someIds (p.inUse.set i none))
          (p.available ++ someIds p.inUse) := by
        rw [List.append_assoc]
        exact (hperm.symm).append_left p.available
      exact (hchain.nodup_iff).mpr hInv.nodup
    · have hlen2 := hperm.length_eq
      have h2 := hInv.complete
      simp only [List.length_cons] at hlen2
      simp only [List.length_append, List.length_singleton]
      omega
    · intro j idj hj
      by_cases hji : j = i
      · subst hji
        rw [get?_set_self _ _ _ hi] at hj
        simp at hj
      · rw [get?_set_other _ i j _ (fun hij => hji hij.symm)] at hj
        obtain ⟨hidj_lt, bj, hbj, hbjidx⟩ := hInv.slots j idj hj
        have hidj_ne : idj ≠ id := by
          intro hx
          subst hx
          exact hji (someIds_nodup_get?_inj hSnd hj hle)
        exact ⟨hidj_lt, ⟨bj,
          by rw [get?_set_other _ id idj _ (fun hx => hidj_ne hx.symm)]; exact hbj,
          hbjidx⟩⟩
    · intro x bx hbx hnl
      by_cases hx : x = id
      · subst hx
        rw [get?_set_self _ _ _ hid_bufs] at hbx
        have : bx = { relBuf b with index := -1, tag := "", len := 0 } := by
          injection hbx with h1
          exact h1.symm
        rw [this]
      · rw [get?_set_other _ id x _ (fun hxx => hx hxx.symm)] at hbx
        refine hInv.tag_clear x bx hbx ?_
        intro hlx
        obtain ⟨j, hj⟩ := get?_of_mem hlx
        have hji : j ≠ i := by
          intro hx2
          subst hx2
          rw [hle] at hj
          have : x = id := by
            injection hj with h1
            injection h1 with h2
            exact h2.symm
          exact hx this
        exact hnl (mem_of_get?
          (by rw [get?_set_other _ i j _ (fun hij => hji hij.symm)]; exact hj))
  · intro x hx hlx
    obtain ⟨j, hj⟩ := get?_of_mem hlx
    have hji : j ≠ i := by
      intro hx2
      subst hx2
      rw [hle] at hj
      have : x = id := by
        injection hj with h1
        injection h1 with h2
        exact h2.symm
      exact hx this
    exact mem_of_get?
      (by rw [get?_set_other _ i j _ (fun hij => hji hij.symm)]; exact hj)

/-- On a valid pool with a non-empty channel, `Pool.Acquire` always hands out
the head of the channel (an empty slot always exists by the invariant). -/
theorem acquire_total {p : PoolState} (hInv : Inv p) (hs : p.size ≠ 0) (hc : p.count ≠ 0)
    {id : Nat} {rest : List Nat} (hav : p.available = id :: rest) (tag : String) (now : Nat) :
    ∃ p', Pool.Acquire p tag now = AcquireOutcome.acquired p' id := by
  have hidc : id < p.count := hInv.avail_lt id (by rw [hav]; exact List.mem_cons_self _ _)
  have hnc : noneCount p.inUse ≠ 0 := by
    have h1 := noneCount_add_someIds_length p.inUse
    have h2 := hInv.complete
    have h3 := hInv.inUse_len
    rw [hav] at h2
    simp only [List.length_cons] at h2
    omega
  obtain ⟨i, hfn⟩ := firstNoneIdx_isSome hnc
  obtain ⟨b, hb⟩ := get?_of_lt (l := p.bufs) (i := id) (by rw [hInv.bufs_len]; exact hidc)
  exact ⟨_, acquire_eq tag now hs hc hav hfn hb⟩

/-- Every reachable pool state satisfies the representation invariant. -/
theorem reachable_inv {p : PoolState} (h : Reachable p) : Inv p := by
  induction h with
  | init c s p h => exact inv_init h
  | acq p p' tag now id hR heq ih => exact (inv_acquire ih heq).1
  | rel p p' id i logs hR hle heq ih =>
      obtain ⟨p'', logs'', heq'', hInv'', _⟩ := inv_release ih hle
      rw [heq] at heq''
      cases heq''
      exact hInv''

/-- On a valid pool, `BuffersAvailable` equals the channel length: empty
slots and queued handles are in bijection by the invariant. -/
theorem buffersAvailable_inv {p : PoolState} (hInv : Inv p)
    (hs : p.size ≠ 0) (hc : p.count ≠ 0) :
    Pool.BuffersAvailable p = p.available.length := by
  unfold Pool.BuffersAvailable
  rw [if_neg (by simp [hs, hc])]
  have h1 := noneCount_add_someIds_length p.inUse
  have h2 := hInv.complete
  have h3 := hInv.inUse_len
  omega

/-- `k` acquires on a valid pool with at least `k` queued handles succeed,
take exactly the first `k` queued identifiers (in order), and lease them. -/
theorem acquireK_spec (tag : String) (now : Nat) : ∀ (k : Nat) (p : PoolState),
    Inv p → p.size ≠ 0 → p.count ≠ 0 → k ≤ p.available.length →
    ∃ q, acquireK tag now k p = some (q, p.available.take k) ∧ Inv q ∧
      q.size = p.size ∧ q.count = p.count ∧ q.available = p.available.drop k ∧
      (∀ x ∈ p.available.take k, leased q x) ∧ (∀ x, leased p x → leased q x)
  | 0, p, hInv, _, _, _ =>
      ⟨p, by simp [acquireK], hInv, rfl, rfl, by simp, by simp, fun x h => h⟩
  | k + 1, p, hInv, hs, hc, hk => by
      cases hav : p.available with
      | nil =>
          rw [hav] at hk
          simp at hk
      | cons id rest =>
          obtain ⟨p1, heq⟩ := acquire_total hInv hs hc hav tag now
          obtain ⟨hInv1, hsz, hct, havail, _, hlease1, hmono1⟩ := inv_acquire hInv heq
          have hrest : p1.available = rest := by
            rw [hav] at havail
            injection havail with h1 h2
            exact h2.symm
          have hk' : k ≤ p1.available.length := by
            rw [hrest]
            rw [hav] at hk
            simpa using Nat.le_of_succ_le_succ hk
          obtain ⟨q, hq, hInvq, hqs, hqc, hqa, hqleased, hqmono⟩ :=
            acquireK_spec tag now k p1 hInv1 (by rw [hsz]; exact hs)
              (by rw [hct]; exact hc) hk'
          refine ⟨q, ?_, hInvq, hqs.trans hsz, hqc.trans hct, ?_, ?_, ?_⟩
          · show (match Pool.Acquire p tag now with
              | AcquireOutcome.acquired p' id =>
                  (match acquireK tag now k p' with
                   | some (q0, ids) => some (q0, id :: ids)
                   | none => none)
              | _ => none) = some (q, (id :: rest).take (k + 1))
            rw [heq]
            show (match acquireK tag now k p1 with
              | some (q0, ids) => some (q0, id :: ids)
              | none => none) = some (q, (id :: rest).take (k + 1))
            rw [hq, hrest]
            simp [List.take_succ_cons]
          · rw [hqa, hrest]
            simp [List.drop_succ_cons]
          · intro x hx
            rw [List.take_succ_cons] at hx
            rcases List.mem_cons.mp hx with hx | hx
            · rw [hx]
              exact hqmono id hlease1
            · rw [hrest] at hqleased
              exact hqleased x hx
          · intro x hlx
            exact hqmono x (hmono1 x hlx)

/-- Releasing a duplicate-free list of currently-leased buffers succeeds and
grows the channel by one handle per release. -/
theorem releaseAll_spec : ∀ (ids : List Nat) (p : PoolState),
    Inv p → ids.Nodup → (∀ x ∈ ids, leased p x) →
    ∃ q, releaseAll ids p = some q ∧ Inv q ∧ q.size = p.size ∧ q.count = p.count ∧
      q.available.length = p.available.length + ids.length
  | [], p, hInv, _, _ => ⟨p, rfl, hInv, rfl, rfl, by simp⟩
  | id :: rest, p, hInv, hnd, hls => by
      have hl : leased p id := hls id (List.mem_cons_self _ _)
      obtain ⟨i, hi⟩ := get?_of_mem hl
      obtain ⟨p1, logs, heq, hInv1, hsz, hct, hav1, _, hmono⟩ := inv_release hInv hi
      have hid_notin : id ∉ rest := (List.nodup_cons.mp hnd).1
      have hls' : ∀ x ∈ rest, leased p1 x := by
        intro x hx
        refine hmono x ?_ (hls x (List.mem_cons_of_mem _ hx))
        intro hxid
        exact hid_notin (hxid ▸ hx)
      obtain ⟨q, hq, hInvq, hqs, hqc, hqlen⟩ :=
        releaseAll_spec rest p1 hInv1 (List.nodup_cons.mp hnd).2 hls'
      refine ⟨q, ?_, hInvq, hqs.trans hsz, hqc.trans hct, ?_⟩
      · show (match Buffer.Release p id with
          | Except.ok q0 => releaseAll rest q0.fst
          | Except.error _ => none) = some q
        rw [heq]
        exact hq
      · rw [hqlen, hav1]
        simp only [List.length_append, List.length_cons, List.length_nil]
        omega

/-! ### Lemmas about the watchdog scan -/

theorem monitorScan_mem_intro (bufs : List Buf) (now : Nat) :
    ∀ (slots : List (Option Nat)) (i id : Nat) (b : Buf),
      slots.get? i = some (some id) → bufs.get? id = some b →
      b.acquiredAt + 100 < now →
      LogEvent.warnStale b.tag (now - b.acquiredAt) ∈ monitorScan bufs now slots
  | [], i, id, b, hslot, _, _ => by simp [List.get?] at hslot
  | none :: rest, 0, id, b, hslot, _, _ => by simp [List.get?] at hslot
  | none :: rest, i + 1, id, b, hslot, hb, hw => by
      simp only [monitorScan]
      exact monitorScan_mem_intro bufs now rest i id b hslot hb hw
  | some id0 :: rest, 0, id, b, hslot, hb, hw => by
      have hid : id0 = id := by
        simp [List.get?] at hslot
        exact hslot
      subst hid
      simp only [monitorScan, hb, if_pos hw]
      exact List.mem_append.mpr (Or.inl (List.mem_singleton.mpr rfl))
  | some id0 :: rest, i + 1, id, b, hslot, hb, hw => by
      simp only [monitorScan]
      exact List.mem_append.mpr
        (Or.inr (monitorScan_mem_intro bufs now rest i id b hslot hb hw))

theorem monitorScan_mem_elim (bufs : List Buf) (now : Nat) :
    ∀ (slots : List (Option Nat)) (e : LogEvent), e ∈ monitorScan bufs now slots →
      ∃ i id b, slots.get? i = some (some id) ∧ bufs.get? id = some b ∧
        b.acquiredAt + 100 < now ∧ e = LogEvent.warnStale b.tag (now - b.acquiredAt)
  | [], e, he => by simp [monitorScan] at he
  | none :: rest, e, he => by
      simp only [monitorScan] at he
      obtain ⟨i, id, b, h1, h2, h3, h4⟩ := monitorScan_mem_elim bufs now rest e he
      exact ⟨i + 1, id, b, h1, h2, h3, h4⟩
  | some id0 :: rest, e, he => by
      simp only [monitorScan] at he
      rcases List.mem_append.mp he with he | he
      · cases hb : bufs.get? id0 with
        | none =>
            rw [hb] at he
            simp at he
        | some b =>
            rw [hb] at he
            have he2 : e ∈ (if b.acquiredAt + 100 < now then
                [LogEvent.warnStale b.tag (now - b.acquiredAt)] else []) := he
            by_cases hw : b.acquiredAt + 100 < now
            · rw [if_pos hw] at he2
              have he' : e = LogEvent.warnStale b.tag (now - b.acquiredAt) := by
                simpa using he2
              exact ⟨0, id0, b, rfl, hb, hw, he'⟩
            · rw [if_neg hw] at he2
              simp at he2
      · obtain ⟨i, id, b, h1, h2, h3, h4⟩ := monitorScan_mem_elim bufs now rest e he
        exact ⟨i + 1, id, b, h1, h2, h3, h4⟩

/-! ### The claims -/

/-- C2: for every leased buffer of a valid pool, `Release()` succeeds and
afterwards the buffer has content length zero, unchanged capacity, empty
tag, `slotIndex = -1`, its `inUse` slot is empty, and the handle is pushed
onto the back of the available queue — for arbitrary prior content (`b` is
universally quantified, so this holds regardless of what was written). -/
theorem C2_release_resets_buffer (p : PoolState) (id i : Nat) (b : Buf)
    (hb : p.bufs.get? id = some b)
    (hslot : p.inUse.get? i = some (some id)) (hidx : b.index = (i : Int)) :
    releaseOk p id = true ∧
    (releaseStateD p id).bufs.get? id =
      some { len := 0, cap := b.cap, index := -1,
             origSize := if b.origSize < b.cap then b.cap else b.origSize,
             acquiredAt := b.acquiredAt, tag := "" } ∧
    (releaseStateD p id).inUse.get? i = some none ∧
    (releaseStateD p id).available = p.available ++ [id] := by
  have hi : i < p.inUse.length := get?_lt hslot
  have hid_bufs : id < p.bufs.length := get?_lt hb
  have heq := release_eq hb hidx hi
  have hbeq : ({ relBuf b with index := -1, tag := "", len := 0 } : Buf) =
      { len := 0, cap := b.cap, index := -1,
        origSize := if b.origSize < b.cap then b.cap else b.origSize,
        acquiredAt := b.acquiredAt, tag := "" } := by
    by_cases hw : b.origSize < b.cap
    · simp [relBuf, hw]
    · simp [relBuf, hw]
  have hst : releaseStateD p id =
      { p with inUse := p.inUse.set i none,
               bufs := p.bufs.set id { relBuf b with index := -1, tag := "", len := 0 },
               available := p.available ++ [id] } := by
    unfold releaseStateD
    rw [heq]
  have hok : releaseOk p id = true := by
    unfold releaseOk
    rw [heq]
  refine ⟨hok, ?_, ?_, ?_⟩
  · rw [hst]
    show (p.bufs.set id { relBuf b with index := -1, tag := "", len := 0 }).get? id = _
    rw [get?_set_self _ _ _ hid_bufs, hbeq]
  · rw [hst]
    exact get?_set_self _ _ _ hi
  · rw [hst]

/-- C3: on release of a leased buffer, a growth warning carrying the tag and
the requested-vs-actual sizes fires exactly when the capacity exceeds
`origSize` (the high-water mark); in that case the high-water mark is raised
to the capacity, and any release of a buffer whose capacity does not exceed
its high-water mark emits no growth warning (hence no re-warn at the same or
smaller size). -/
theorem C3_growth_warning_iff (p : PoolState) (id i : Nat) (b : Buf)
    (hb : p.bufs.get? id = some b)
    (hslot : p.inUse.get? i = some (some id)) (hidx : b.index = (i : Int)) :
    (growthWarned (releaseLogsD p id) = true ↔ b.origSize < b.cap) ∧
    (b.origSize < b.cap →
      releaseLogsD p id = [LogEvent.warnGrowth b.tag b.cap p.size]) ∧
    (¬ b.origSize < b.cap → releaseLogsD p id = []) ∧
    ((releaseStateD p id).bufs.get? id).map Buf.origSize =
      some (if b.origSize < b.cap then b.cap else b.origSize) ∧
    (∀ (q : PoolState) (b2 : Buf), q.bufs.get? id = some b2 →
      b2.cap ≤ b2.origSize → growthWarned (releaseLogsD q id) = false) := by
  have hi : i < p.inUse.length := get?_lt hslot
  have hid_bufs : id < p.bufs.length := get?_lt hb
  have heq := release_eq hb hidx hi
  have hlogs : releaseLogsD p id = relLogs p b := by
    unfold releaseLogsD
    rw [heq]
  have hst : releaseStateD p id =
      { p with inUse := p.inUse.set i none,
               bufs := p.bufs.set id { relBuf b with index := -1, tag := "", len := 0 },
               available := p.available ++ [id] } := by
    unfold releaseStateD
    rw [heq]
  refine ⟨?_, ?_, ?_, ?_, ?_⟩
  · rw [hlogs]
    by_cases hw : b.origSize < b.cap
    · simp [relLogs, hw, growthWarned]
    · simp [relLogs, hw, growthWarned]
  · intro hw
    rw [hlogs]
    unfold relLogs
    rw [if_pos hw]
  · intro hw
    rw [hlogs]
    unfold relLogs
    rw [if_neg hw]
  · rw [hst]
    show ((p.bufs.set id { relBuf b with index := -1, tag := "", len := 0 }).get? id).map
      Buf.origSize = _
    rw [get?_set_self _ _ _ hid_bufs]
    by_cases hw : b.origSize < b.cap
    · simp [relBuf, hw]
    · simp [relBuf, hw]
  · intro q b2 hb2 hle
    have hw : ¬ b2.origSize < b2.cap := Nat.not_lt.mpr hle
    have hrl : relLogs q b2 = [] := by
      unfold relLogs
      rw [if_neg hw]
    simp only [releaseLogsD, Buffer.Release, hb2]
    by_cases hcond : 0 ≤ (relBuf b2).index ∧ (relBuf b2).index.toNat < q.inUse.length
    · simp [hcond, hrl, growthWarned]
    · simp [hcond, growthWarned]

/-- C4: on a valid pool with a free buffer, `Acquire(tag)` hands out the head
of the queue, stores it in the lowest-index empty slot `i` of `inUse`, sets
its `slotIndex` to `i`, and stamps `tag` and `acquiredAt` with the caller's
tag and the current time; all other slots are untouched. -/
theorem C4_acquire_lowest_slot (p : PoolState) (tag : String) (now : Nat)
    (id : Nat) (rest : List Nat) (i : Nat) (b : Buf)
    (hs : p.size ≠ 0) (hc : p.count ≠ 0) (hav : p.available = id :: rest)
    (hempty : p.inUse.get? i = some none)
    (hleast : ∀ j, j < i → p.inUse.get? j ≠ some none)
    (hb : p.bufs.get? id = some b) :
    acquireIdD p tag now = some id ∧
    (acquireStateD p tag now).inUse.get? i = some (some id) ∧
    (acquireStateD p tag now).bufs.get? id =
      some { b with index := (i : Int), tag := tag, acquiredAt := now } ∧
    (acquireStateD p tag now).available = rest ∧
    (∀ j, j ≠ i → (acquireStateD p tag now).inUse.get? j = p.inUse.get? j) := by
  have hfn := firstNoneIdx_least hempty hleast
  have heq := acquire_eq tag now hs hc hav hfn hb
  have hi : i < p.inUse.length := get?_lt hempty
  have hidb : id < p.bufs.length := get?_lt hb
  have hst : acquireStateD p tag now =
      { p with available := rest, inUse := p.inUse.set i (some id),
               bufs := p.bufs.set id { b with index := (i : Int), tag := tag, acquiredAt := now } } := by
    unfold acquireStateD
    rw [heq]
  have hid2 : acquireIdD p tag now = some id := by
    unfold acquireIdD
    rw [heq]
  refine ⟨hid2, ?_, ?_, ?_, ?_⟩
  · rw [hst]
    exact get?_set_self _ _ _ hi
  · rw [hst]
    exact get?_set_self _ _ _ hidb
  · rw [hst]
  · intro j hj
    rw [hst]
    exact get?_set_other _ i j _ (fun h => hj h.symm)

/-- C5 (amended): on every non-nil pool whose state is invalid or torn down
(`size == 0` or `count == 0`, e.g. after `Free()`), `Acquire` returns nil
immediately without touching the channel, `BuffersAvailable` returns `0`,
and `Free` is a no-op; `NewPool` with `count <= 0` or `size <= 0` logs an
error and yields a nil pool.  (The original claim also asserted that
operations on the nil pool itself return zero values; they in fact
dereference a nil pointer, see the counterexample.) -/
theorem C5_invalid_pool_ops_amended :
    (∀ (p : PoolState) (tag : String) (now : Nat), p.size = 0 ∨ p.count = 0 →
      Pool.Acquire p tag now = AcquireOutcome.nilResult ∧
      Pool.BuffersAvailable p = 0 ∧ Pool.Free p = some p) ∧
    (∀ c s : Int, c ≤ 0 ∨ s ≤ 0 →
      NewPool c s = (none, [LogEvent.errorInvalidArgs])) := by
  constructor
  · intro p tag now hg
    refine ⟨?_, ?_, ?_⟩
    · unfold Pool.Acquire
      rw [if_pos hg]
    · unfold Pool.BuffersAvailable
      rw [if_pos hg]
    · unfold Pool.Free
      rw [if_pos hg]
  · intro c s hg
    unfold NewPool
    rw [if_pos hg]

/-- C7: `Free()` on a valid pool whose buffers have all been released sets
`count` to `0` (the watchdog exit signal), drains exactly the original
`count` handles from the channel (leaving it empty), and discards the
`inUse` bookkeeping; if any buffer is still leased, the drain blocks
(modelled as `none`), i.e. `Free` returns only once every buffer has been
released. -/
theorem C7_free_drains_pool (p : PoolState) (hs : p.size ≠ 0) (hc : p.count ≠ 0) :
    (p.available.length = p.count →
      Pool.Free p = some { p with count := 0, available := [], inUse := [] }) ∧
    (p.available.length < p.count → Pool.Free p = none) := by
  constructor
  · intro hlen
    unfold Pool.Free
    rw [if_neg (by simp [hs, hc]), ← hlen, drainN_all]
  · intro hlen
    unfold Pool.Free
    rw [if_neg (by simp [hs, hc]), drainN_short p.count p.available hlen]

/-- C9: one iteration of the watchdog loop never changes the pool state; on
a torn-down pool it logs the debug exit message and terminates; otherwise it
keeps looping and its log output consists exactly of one staleness warning
(tag and elapsed hold time) for each in-use buffer held for more than the
100 ms threshold — it mutates nothing and reclaims nothing. -/
theorem C9_watchdog_observational (p : PoolState) (now : Nat) :
    (Pool.poolMonitorStep p now).fst = p ∧
    (p.count = 0 →
      (Pool.poolMonitorStep p now).snd = ([LogEvent.debugMonitorExit], true)) ∧
    (p.count ≠ 0 → (Pool.poolMonitorStep p now).snd.snd = false ∧
      (∀ i id b, p.inUse.get? i = some (some id) → p.bufs.get? id = some b →
        b.acquiredAt + 100 < now →
        LogEvent.warnStale b.tag (now - b.acquiredAt) ∈ (Pool.poolMonitorStep p now).snd.fst) ∧
      (∀ e, e ∈ (Pool.poolMonitorStep p now).snd.fst →
        ∃ i id b, p.inUse.get? i = some (some id) ∧ p.bufs.get? id = some b ∧
          b.acquiredAt + 100 < now ∧
          e = LogEvent.warnStale b.tag (now - b.acquiredAt))) := by
  unfold Pool.poolMonitorStep
  by_cases hc : p.count = 0
  · rw [if_pos hc]
    exact ⟨rfl, fun _ => rfl, fun hne => absurd hc hne⟩
  · rw [if_neg hc]
    refine ⟨rfl, fun h => absurd h hc, fun _ => ⟨rfl, ?_, ?_⟩⟩
    · intro i id b hslot hb hstale
      exact monitorScan_mem_intro p.bufs now p.inUse i id b hslot hb hstale
    · intro e he
      exact monitorScan_mem_elim p.bufs now p.inUse e he

/-- C10: `Release` on a buffer of a pool (with `inUse` sized to `count`)
completes without a Go runtime panic exactly when `0 <= slotIndex < count`,
i.e. when the buffer is currently leased; in particular a second release
(`slotIndex = -1`) performs the out-of-bounds slice write
`buffersInUse[-1] = nil` (a panic), not a no-op. -/
theorem C10_release_safety_iff (p : PoolState) (id : Nat) (b : Buf)
    (hlen : p.inUse.length = p.count) (hb : p.bufs.get? id = some b) :
    (releaseOk p id = true ↔ 0 ≤ b.index ∧ b.index.toNat < p.count) ∧
    (b.index = -1 → Buffer.Release p id = Except.error ()) := by
  have hrel : Buffer.Release p id =
      (if 0 ≤ b.index ∧ b.index.toNat < p.inUse.length then
        Except.ok
          ({ p with
              inUse := p.inUse.set b.index.toNat none,
              bufs := p.bufs.set id { relBuf b with index := -1, tag := "", len := 0 },
              available := p.available ++ [id] },
           relLogs p b)
       else Except.error ()) := by
    simp only [Buffer.Release, hb, relBuf_index]
  constructor
  · unfold releaseOk
    rw [hrel]
    by_cases hcond : 0 ≤ b.index ∧ b.index.toNat < p.inUse.length
    · rw [if_pos hcond]
      rw [hlen] at hcond
      simp [hcond]
    · rw [if_neg hcond]
      rw [hlen] at hcond
      simp [hcond]
  · intro hneg
    have hnc : ¬ (0 ≤ b.index ∧ b.index.toNat < p.inUse.length) := by
      intro hcond
      rw [hneg] at hcond
      exact absurd hcond.1 (by decide)
    rw [hrel, if_neg hnc]

/-- C1: every reachable state of a valid pool satisfies the pool invariant:
queued handles plus non-empty `inUse` slots account for exactly `count`
buffers, no handle is both queued and in a slot, and no two simultaneously
leased buffers carry the same slot index.  `Acquire` and `Release` preserve
it because `Reachable` is closed under them; `BuffersAvailable` and the
watchdog scan do not modify the state at all (last conjunct for the scan). -/
theorem C1_pool_state_invariant (p : PoolState) (hp : Reachable p) :
    p.available.length + (someIds p.inUse).length = p.count ∧
    (∀ id, id ∈ p.available → ¬ leased p id) ∧
    (∀ i j idi idj bi bj, p.inUse.get? i = some (some idi) →
      p.inUse.get? j = some (some idj) → i ≠ j →
      p.bufs.get? idi = some bi → p.bufs.get? idj = some bj →
      bi.index ≠ bj.index) ∧
    (∀ now, (Pool.poolMonitorStep p now).fst = p) := by
  have hInv := reachable_inv hp
  refine ⟨hInv.complete, ?_, ?_, ?_⟩
  · intro id hid hl
    exact (List.nodup_append.mp hInv.nodup).2.2 hid (mem_someIds.mpr hl)
  · intro i j idi idj bi bj hi hj hij hbi hbj hcontra
    obtain ⟨_, bi', hbi', hbidx⟩ := hInv.slots i idi hi
    obtain ⟨_, bj', hbj', hbjdx⟩ := hInv.slots j idj hj
    rw [hbi] at hbi'
    rw [hbj] at hbj'
    have e1 : bi = bi' := Option.some.inj hbi'
    have e2 : bj = bj' := Option.some.inj hbj'
    rw [e1, e2, hbidx, hbjdx] at hcontra
    have : i = j := by exact_mod_cast hcontra
    exact hij this
  · intro now
    unfold Pool.poolMonitorStep
    by_cases hc : p.count = 0
    · rw [if_pos hc]
    · rw [if_neg hc]

/-- C8 (amended): in every reachable state of a valid pool, a non-empty tag
implies the buffer is leased, `slotIndex = -1` implies it is not leased, and
a leased buffer records exactly its slot index (hence `slotIndex >= 0`).
The original iff fails in two ways (see the counterexample): a never-leased
buffer sits in the queue with the Go zero value `slotIndex = 0`, and
`Acquire("")` produces a leased buffer with an empty tag. -/
theorem C8_leased_invariant_amended (p : PoolState) (hp : Reachable p) :
    ∀ id b, p.bufs.get? id = some b →
      (b.tag ≠ "" → leased p id) ∧
      (b.index = -1 → ¬ leased p id) ∧
      (∀ i, p.inUse.get? i = some (some id) → b.index = (i : Int)) := by
  have hInv := reachable_inv hp
  intro id b hb
  refine ⟨?_, ?_, ?_⟩
  · intro htag
    by_contra hnl
    exact htag (hInv.tag_clear id b hb hnl)
  · intro hidx hl
    obtain ⟨i, hi⟩ := get?_of_mem hl
    obtain ⟨_, b', hb', hbidx⟩ := hInv.slots i id hi
    rw [hb] at hb'
    have e : b = b' := Option.some.inj hb'
    rw [← e] at hbidx
    rw [hidx] at hbidx
    omega
  · intro i hi
    obtain ⟨_, b', hb', hbidx⟩ := hInv.slots i id hi
    rw [hb] at hb'
    have e : b = b' := Option.some.inj hb'
    rw [e]
    exact hbidx

/-- C6: for a fresh pool of `N` buffers and any `k <= N`: `k` acquires all
succeed and leave `BuffersAvailable() = N - k` (the count of empty `inUse`
slots); releasing the `k` acquired buffers then restores
`BuffersAvailable() = N`. -/
theorem C6_buffers_available_counts (N size k : Nat) (p0 : PoolState)
    (tag : String) (now : Nat)
    (hN : 0 < N) (hsize : 0 < size) (hk : k ≤ N)
    (hnew : (NewPool (N : Int) (size : Int)).fst = some p0) :
    (acquireK tag now k p0).isSome = true ∧
    Pool.BuffersAvailable (afterAcquires tag now k p0) = N - k ∧
    (releaseAll (acquiredIds tag now k p0) (afterAcquires tag now k p0)).isSome = true ∧
    Pool.BuffersAvailable
      (afterReleaseAll (acquiredIds tag now k p0) (afterAcquires tag now k p0)) = N := by
  have hInv0 := inv_init hnew
  have hng : ¬ ((N : Int) ≤ 0 ∨ (size : Int) ≤ 0) := by
    intro hg
    rcases hg with hg | hg
    · omega
    · omega
  have hnew2 : some (freshPoolN N size) = some p0 := by
    rw [← hnew]
    unfold NewPool
    rw [if_neg hng]
    rfl
  have hp0 : p0 = freshPoolN N size := (Option.some.inj hnew2).symm
  have hs0 : p0.size ≠ 0 := by
    rw [hp0]
    simp only [freshPoolN]
    omega
  have hc0 : p0.count ≠ 0 := by
    rw [hp0]
    simp only [freshPoolN]
    omega
  have hlen : p0.available.length = N := by
    rw [hp0]
    simp [freshPoolN, List.length_range]
  have hk' : k ≤ p0.available.length := by
    rw [hlen]
    exact hk
  obtain ⟨q, hq, hInvq, hqs, hqc, hqa, hqleased, _⟩ :=
    acquireK_spec tag now k p0 hInv0 hs0 hc0 hk'
  have haft : afterAcquires tag now k p0 = q := by
    unfold afterAcquires
    rw [hq]
    rfl
  have hids : acquiredIds tag now k p0 = p0.available.take k := by
    unfold acquiredIds
    rw [hq]
    rfl
  have hqs0 : q.size ≠ 0 := by
    rw [hqs]
    exact hs0
  have hqc0 : q.count ≠ 0 := by
    rw [hqc]
    exact hc0
  have hnd_ids : (p0.available.take k).Nodup :=
    (List.take_sublist k p0.available).nodup (List.nodup_append.mp hInv0.nodup).1
  obtain ⟨q2, hq2, hInv2, hq2s, hq2c, hq2len⟩ :=
    releaseAll_spec (p0.available.take k) q hInvq hnd_ids hqleased
  have hrel2 : afterReleaseAll (p0.available.take k) q = q2 := by
    unfold afterReleaseAll
    rw [hq2]
    rfl
  have hq2s0 : q2.size ≠ 0 := by
    rw [hq2s]
    exact hqs0
  have hq2c0 : q2.count ≠ 0 := by
    rw [hq2c]
    exact hqc0
  refine ⟨?_, ?_, ?_, ?_⟩
  · rw [hq]
    rfl
  · rw [haft, buffersAvailable_inv hInvq hqs0 hqc0, hqa, List.length_drop, hlen]
  · rw [hids, haft, hq2]
    rfl
  · rw [hids, haft, hrel2, buffersAvailable_inv hInv2 hq2s0 hq2c0, hq2len,
      hqa, List.length_drop, List.length_take, hlen]
    omega

/-! ### Counterexamples -/

/-- C5 counterexample: `NewPool(ctx, 0, 1000)` yields a nil pool, and calling
`Acquire`, `BuffersAvailable` or `Free` on that nil pool dereferences the
nil receiver (`p.size`) — a Go runtime panic — rather than returning an
invalid/zero result as the claim states for "all subsequent operations". -/
theorem C5_nil_pool_counterexample :
    (NewPool 0 1000).fst = none ∧
    Pool.AcquireRef (NewPool 0 1000).fst "t" 0 = RefOutcome.panicNilDeref ∧
    Pool.BuffersAvailableRef (NewPool 0 1000).fst = RefOutcome.panicNilDeref ∧
    Pool.FreeRef (NewPool 0 1000).fst = RefOutcome.panicNilDeref := by
  decide

/-- C8 counterexample: both directions of the claimed iff fail on the code.
In the pool built by `NewPool(ctx, 1, 1)` the only buffer is in the
available queue — not leased — yet its `slotIndex` is the Go zero value `0`,
not `-1`; and `Acquire("")` yields a leased buffer whose tag is the empty
string. -/
theorem C8_leased_invariant_counterexample :
    (NewPool 1 1).fst = some freshPool1 ∧
    freshPool1.bufs.get? 0 = some bFresh ∧
    ¬ leased freshPool1 0 ∧
    bFresh.index ≠ -1 ∧
    Pool.Acquire freshPool1 "" 5 = AcquireOutcome.acquired pAcqEmpty 0 ∧
    pAcqEmpty.bufs.get? 0 = some bAcqEmpty ∧
    leased pAcqEmpty 0 ∧
    bAcqEmpty.tag = "" := by
  decide

/-! ### Witnesses -/

/-- C1 witness: the invariant holds in the concrete reachable state built by
`NewPool(ctx, 1, 1)`. -/
theorem C1_pool_state_invariant_witness :
    freshPool1.available.length + (someIds freshPool1.inUse).length = freshPool1.count ∧
    ¬ leased freshPool1 0 ∧
    (Pool.poolMonitorStep freshPool1 7).fst = freshPool1 := by
  have h := C1_pool_state_invariant freshPool1 (Reachable.init 1 1 freshPool1 (by decide))
  exact ⟨h.1, h.2.1 0 (by decide), h.2.2.2 7⟩

/-- C2 witness: releasing the concrete leased buffer of `pAcq1`. -/
theorem C2_release_resets_buffer_witness :
    releaseOk pAcq1 0 = true ∧
    (releaseStateD pAcq1 0).bufs.get? 0 =
      some { len := 0, cap := 1, index := -1, origSize := 1, acquiredAt := 5, tag := "" } ∧
    (releaseStateD pAcq1 0).inUse.get? 0 = some none ∧
    (releaseStateD pAcq1 0).available = [0] := by
  have h := C2_release_resets_buffer pAcq1 0 0 bAcq (by decide) (by decide) (by decide)
  exact ⟨h.1, h.2.1, h.2.2.1, h.2.2.2⟩

/-- C3 witness: releasing the grown buffer of `pGrow` warns once (tag,
actual 2 bytes vs requested 1) and raises the high-water mark to 2; a later
release of the same buffer at unchanged capacity (`pGrow2`) does not warn. -/
theorem C3_growth_warning_iff_witness :
    growthWarned (releaseLogsD pGrow 0) = true ∧
    releaseLogsD pGrow 0 = [LogEvent.warnGrowth "g" 2 1] ∧
    ((releaseStateD pGrow 0).bufs.get? 0).map Buf.origSize = some 2 ∧
    growthWarned (releaseLogsD pGrow2 0) = false := by
  have h := C3_growth_warning_iff pGrow 0 0 bGrow (by decide) (by decide) (by decide)
  exact ⟨h.1.mpr (by decide), h.2.1 (by decide), h.2.2.2.1,
    h.2.2.2.2 pGrow2 bGrow2 (by decide) (by decide)⟩

/-- C4 witness: acquiring from `pMid` (slot 0 busy) places buffer 1 in slot
1 — the lowest free index — and stamps tag and time. -/
theorem C4_acquire_lowest_slot_witness :
    acquireIdD pMid "u" 7 = some 1 ∧
    (acquireStateD pMid "u" 7).inUse.get? 1 = some (some 1) ∧
    (acquireStateD pMid "u" 7).bufs.get? 1 =
      some { len := 0, cap := 1, index := 1, origSize := 1, acquiredAt := 7, tag := "u" } ∧
    (acquireStateD pMid "u" 7).available = [] ∧
    (acquireStateD pMid "u" 7).inUse.get? 0 = pMid.inUse.get? 0 := by
  have h := C4_acquire_lowest_slot pMid "u" 7 1 [] 1 bFresh
    (by decide) (by decide) (by decide) (by decide) (by decide) (by decide)
  exact ⟨h.1, h.2.1, h.2.2.1, h.2.2.2.1, h.2.2.2.2 0 (by decide)⟩

/-- C5 witness: the amended statement at the torn-down pool `pDead` and at
invalid constructor arguments. -/
theorem C5_invalid_pool_ops_witness :
    Pool.Acquire pDead "t" 3 = AcquireOutcome.nilResult ∧
    Pool.BuffersAvailable pDead = 0 ∧
    Pool.Free pDead = some pDead ∧
    NewPool (-2) 10 = (none, [LogEvent.errorInvalidArgs]) := by
  have h1 := C5_invalid_pool_ops_amended.1 pDead "t" 3 (by decide)
  have h2 := C5_invalid_pool_ops_amended.2 (-2) 10 (by decide)
  exact ⟨h1.1, h1.2.1, h1.2.2, h2⟩

/-- C6 witness: in a fresh two-buffer pool, one acquire leaves one buffer
available; releasing it restores two. -/
theorem C6_buffers_available_counts_witness :
    (acquireK "t" 3 1 freshPool2).isSome = true ∧
    Pool.BuffersAvailable (afterAcquires "t" 3 1 freshPool2) = 1 ∧
    (releaseAll (acquiredIds "t" 3 1 freshPool2) (afterAcquires "t" 3 1 freshPool2)).isSome
      = true ∧
    Pool.BuffersAvailable
      (afterReleaseAll (acquiredIds "t" 3 1 freshPool2) (afterAcquires "t" 3 1 freshPool2))
      = 2 := by
  have h := C6_buffers_available_counts 2 1 1 freshPool2 "t" 3
    (by decide) (by decide) (by decide) (by decide)
  exact ⟨h.1, h.2.1, h.2.2.1, h.2.2.2⟩

/-- C7 witness: `Free` on the full fresh pool succeeds and clears the
bookkeeping; `Free` on `pPartial` (one buffer still leased) blocks. -/
theorem C7_free_drains_pool_witness :
    Pool.Free freshPool1 =
      some { size := 1, count := 0, available := [], inUse := [], bufs := [bFresh] } ∧
    Pool.Free pPartial = none := by
  exact ⟨(C7_free_drains_pool freshPool1 (by decide) (by decide)).1 (by decide),
    (C7_free_drains_pool pPartial (by decide) (by decide)).2 (by decide)⟩

/-- C8 witness: the amended invariant at the concrete reachable state
`pAcq1` (buffer 0 leased under tag `"t"` in slot 0). -/
theorem C8_leased_invariant_witness :
    leased pAcq1 0 ∧ bAcq.index = (0 : Int) := by
  have h := C8_leased_invariant_amended pAcq1
    (Reachable.acq freshPool1 pAcq1 "t" 5 0
      (Reachable.init 1 1 freshPool1 (by decide)) (by decide)) 0 bAcq (by decide)
  exact ⟨h.1 (by decide), h.2.2 0 (by decide)⟩

/-- C9 witness: a scan at time 200 leaves `pAcq1` unchanged and warns about
its buffer (held since time 5, i.e. for 195 > 100); on the torn-down pool
`pDead` the watchdog logs the exit message and terminates. -/
theorem C9_watchdog_observational_witness :
    (Pool.poolMonitorStep pAcq1 200).fst = pAcq1 ∧
    LogEvent.warnStale "t" 195 ∈ (Pool.poolMonitorStep pAcq1 200).snd.fst ∧
    (Pool.poolMonitorStep pDead 200).snd = ([LogEvent.debugMonitorExit], true) := by
  have h := C9_watchdog_observational pAcq1 200
  have hd := C9_watchdog_observational pDead 200
  exact ⟨h.1, (h.2.2 (by decide)).2.1 0 0 bAcq (by decide) (by decide) (by decide),
    hd.2.1 rfl⟩

/-- C10 witness: releasing the leased buffer of `pAcq1` is safe; a second
release (on `pRel1`, where `slotIndex = -1`) panics. -/
theorem C10_release_safety_iff_witness :
    releaseOk pAcq1 0 = true ∧ Buffer.Release pRel1 0 = Except.error () := by
  exact ⟨(C10_release_safety_iff pAcq1 0 bAcq (by decide) (by decide)).1.mpr (by decide),
    (C10_release_safety_iff pRel1 0 bRel (by decide) (by decide)).2 (by decide)⟩

end EphemeralBuffers
